import Mathlib

/-!
Verification of the incremental speech-playback engine of assistivox
(`src/gui/tts/tts_manager.py` and `src/gui/tts/kokoro_manager.py`).

The Python code is shallowly embedded. Loops become fuel-indexed structural
recursions; the fuel passed at each top-level entry point always suffices, and
exhaustion is treated as an early stop that never emits a completion event.
The cross-thread stop booleans (`TTSWorker._stop_flag` and the backend's
`_stop_requested`), which start False and are only ever set to True during a
session, are modelled together by an optional request instant `stopT` on a
logical clock that advances at every flag read: a read at instant `t` sees the
stop once `t0 ≤ t`. Results of synthesis and playback are supplied by
environment functions indexed by the sentence key.
-/

namespace Assistivox

/-- A sentence address `(blockIndex, sentenceIndex)`. -/
abbrev Key := Nat × Nat

/-- Strict total order on sentence keys: by block index, then sentence index. -/
def key_lt (j k : Key) : Prop := j.1 < k.1 ∨ (j.1 = k.1 ∧ j.2 < k.2)

/-- Reflexive order on sentence keys. -/
def key_le (j k : Key) : Prop := key_lt j k ∨ j = k

instance (j k : Key) : Decidable (key_lt j k) := by unfold key_lt; infer_instance

instance (j k : Key) : Decidable (key_le j k) := by unfold key_le; infer_instance

/-- `k` addresses an existing sentence of `sentence_data`: its block exists and
its sentence index is within the block (an empty block has no valid keys). -/
def valid_sent (data : List (List String)) (k : Key) : Prop :=
  k.1 < data.length ∧ k.2 < (data.getD k.1 []).length

instance (data : List (List String)) (k : Key) : Decidable (valid_sent data k) := by
  unfold valid_sent; infer_instance

/-! ## The worker thread: `TTSWorker.run` -/

/-- Observable events of `TTSWorker.run`: the `sentence_started` signal, the
outcome of `_play_audio_file` for a sentence, the `error` signal (emitted only
when an exception escapes the loop) and the `finished` signal. -/
inductive Ev where
  | started (b s : Nat)
  | played (b s : Nat) (ok : Bool)
  | errored
  | finished
deriving DecidableEq

/-- The combined stop state (`self._stop_flag or self.tts._stop_requested`)
read at instant `t`. Both flags start False and are only ever set during a
session, so the state is monotone in `t`. -/
def stopped (stopT : Option Nat) (t : Nat) : Bool :=
  match stopT with
  | some t0 => decide (t0 ≤ t)
  | none => false

/-- The sentence loop of `TTSWorker.run` (source lines 75-105) over block `b`
with `n` sentences, starting at index `i` at instant `t`. `audioRes b i` tells
whether `_get_audio_for_sentence` produced audio (False models a synthesis
failure, which `_generate_audio_for_sentence` swallows into `None`), and
`playRes b i` is the result of `_play_audio_file`. Returns
(events, clock, early-return?). -/
def run_sents (stopT : Option Nat) (audioRes playRes : Nat → Nat → Bool)
    (b n : Nat) : Nat → Nat → Nat → List Ev × Nat × Bool
  | 0, _, t => ([], t, true)
  | fuel + 1, i, t =>
    if i < n then
      if stopped stopT t then ([], t + 1, true)
      else if audioRes b i = false then ([Ev.started b i], t + 1, true)
      else if !playRes b i || stopped stopT (t + 1) then
        ([Ev.started b i, Ev.played b i (playRes b i)], t + 2, true)
      else
        let rest := run_sents stopT audioRes playRes b n fuel (i + 1) (t + 2)
        (Ev.started b i :: Ev.played b i (playRes b i) :: rest.1, rest.2.1, rest.2.2)
    else ([], t, false)

/-- One block's inner sentence loop as invoked by the block loop of
`TTSWorker.run`: over the sentences of block `b`, starting at the worker's
start sentence when `b` is the start block and at 0 otherwise (source line 71
with the line 108 reset). -/
def block_inner (data : List (List String)) (sb ss : Nat) (stopT : Option Nat)
    (audioRes playRes : Nat → Nat → Bool) (b t : Nat) : List Ev × Nat × Bool :=
  run_sents stopT audioRes playRes b (data.getD b []).length ((data.getD b []).length + 1)
    (if b = sb then ss else 0) (t + 1)

/-- The block loop of `TTSWorker.run` (source lines 55-113). `sb`/`ss` are the
worker's start block and start sentence. Returns (events, clock,
early-return?). A `break` at the line 57 check is not an early return: control
then falls through to the final completion check. -/
def run_blocks (data : List (List String)) (sb ss : Nat) (stopT : Option Nat)
    (audioRes playRes : Nat → Nat → Bool) : Nat → Nat → Nat → List Ev × Nat × Bool
  | 0, _, t => ([], t, true)
  | fuel + 1, b, t =>
    if b < data.length then
      if stopped stopT t then ([], t + 1, false)
      else if (data.getD b []).length = 0 then
        run_blocks data sb ss stopT audioRes playRes fuel (b + 1) (t + 1)
      else
        let inner := block_inner data sb ss stopT audioRes playRes b t
        if inner.2.2 then (inner.1, inner.2.1, true)
        else if stopped stopT inner.2.1 then (inner.1, inner.2.1 + 1, true)
        else
          let rest := run_blocks data sb ss stopT audioRes playRes fuel (b + 1) (inner.2.1 + 1)
          (inner.1 ++ rest.1, rest.2.1, rest.2.2)
    else ([], t, false)

/-- `TTSWorker.run`: run the block loop from the start position; only when no
early return happened and no stop is observed at the final check (line 116) is
`finished` emitted. Returns (events, instant of the last stop-flag read: the
final completion check when it is reached). -/
def run_worker (data : List (List String)) (sb ss : Nat) (stopT : Option Nat)
    (audioRes playRes : Nat → Nat → Bool) : List Ev × Nat :=
  let r := run_blocks data sb ss stopT audioRes playRes (data.length + 1) sb 0
  if r.2.2 then (r.1, r.2.1)
  else if stopped stopT r.2.1 then (r.1, r.2.1)
  else (r.1 ++ [Ev.finished], r.2.1)

lemma stopped_mono {stopT : Option Nat} {t t' : Nat} (h : t ≤ t')
    (hs : stopped stopT t = true) : stopped stopT t' = true := by
  cases stopT with
  | none => simp [stopped] at hs
  | some t0 => simp only [stopped, decide_eq_true_eq] at hs ⊢; omega

lemma finished_not_mem_run_sents (stopT : Option Nat) (audioRes playRes : Nat → Nat → Bool)
    (b n : Nat) : ∀ fuel i t, Ev.finished ∉ (run_sents stopT audioRes playRes b n fuel i t).1 := by
  intro fuel
  induction fuel with
  | zero => intro i t; simp [run_sents]
  | succ fuel ih =>
    intro i t
    simp only [run_sents]
    split_ifs
    · simp
    · simp
    · simp
    · intro hmem
      simp only [List.mem_cons] at hmem
      rcases hmem with h | h | h
      · exact Ev.noConfusion h
      · exact Ev.noConfusion h
      · exact ih (i + 1) (t + 2) h
    · simp

lemma finished_not_mem_block_inner (data : List (List String)) (sb ss : Nat)
    (stopT : Option Nat) (audioRes playRes : Nat → Nat → Bool) (b t : Nat) :
    Ev.finished ∉ (block_inner data sb ss stopT audioRes playRes b t).1 := by
  unfold block_inner
  exact finished_not_mem_run_sents _ _ _ _ _ _ _ _

lemma finished_not_mem_run_blocks (data : List (List String)) (sb ss : Nat)
    (stopT : Option Nat) (audioRes playRes : Nat → Nat → Bool) :
    ∀ fuel b t, Ev.finished ∉ (run_blocks data sb ss stopT audioRes playRes fuel b t).1 := by
  intro fuel
  induction fuel with
  | zero => intro b t; simp [run_blocks]
  | succ fuel ih =>
    intro b t
    simp only [run_blocks]
    split_ifs
    · simp
    · exact ih (b + 1) (t + 1)
    · exact finished_not_mem_block_inner _ _ _ _ _ _ _ _
    · exact finished_not_mem_block_inner _ _ _ _ _ _ _ _
    · intro hmem
      rcases List.mem_append.mp hmem with h | h
      · exact finished_not_mem_block_inner _ _ _ _ _ _ _ _ h
      · exact ih _ _ h
    · simp

/-- If the inner sentence loop ran to the end of the block without an early
return, then every sentence from its start index to the end of the block was
played successfully. -/
lemma run_sents_complete (stopT : Option Nat) (audioRes playRes : Nat → Nat → Bool)
    (b n : Nat) : ∀ fuel i t,
    (run_sents stopT audioRes playRes b n fuel i t).2.2 = false →
    ∀ j, i ≤ j → j < n →
    Ev.played b j true ∈ (run_sents stopT audioRes playRes b n fuel i t).1 := by
  intro fuel
  induction fuel with
  | zero => intro i t h; simp [run_sents] at h
  | succ fuel ih =>
    intro i t h j hij hjn
    simp only [run_sents] at h ⊢
    split_ifs at h ⊢ with h1 h2 h3 h4
    · have hr : playRes b i = true := by
        by_contra hc
        rw [Bool.not_eq_true] at hc
        simp [hc] at h4
      rcases Nat.lt_or_ge i j with hlt | hge
      · exact List.mem_cons_of_mem _ (List.mem_cons_of_mem _ (ih (i + 1) (t + 2) h j hlt hjn))
      · have hji : j = i := by omega
        subst hji
        rw [hr]
        exact List.mem_cons_of_mem _ (List.mem_cons_self _ _)
    · exact absurd hjn (by omega)

lemma run_sents_clock_le (stopT : Option Nat) (audioRes playRes : Nat → Nat → Bool)
    (b n : Nat) : ∀ fuel i t, t ≤ (run_sents stopT audioRes playRes b n fuel i t).2.1 := by
  intro fuel
  induction fuel with
  | zero => intro i t; simp [run_sents]
  | succ fuel ih =>
    intro i t
    simp only [run_sents]
    split_ifs
    · simp
    · simp
    · simp
    · exact le_trans (by omega) (ih (i + 1) (t + 2))
    · simp

/-- If one block's inner loop ran to the end without an early return, then
every sentence of the block from its start index on was played successfully. -/
lemma block_inner_complete (data : List (List String)) (sb ss : Nat) (stopT : Option Nat)
    (audioRes playRes : Nat → Nat → Bool) (b t : Nat)
    (h : (block_inner data sb ss stopT audioRes playRes b t).2.2 = false)
    (j : Nat) (hj1 : b = sb → ss ≤ j) (hj2 : j < (data.getD b []).length) :
    Ev.played b j true ∈ (block_inner data sb ss stopT audioRes playRes b t).1 := by
  unfold block_inner at h ⊢
  refine run_sents_complete stopT audioRes playRes b _ _ _ _ h j ?_ hj2
  by_cases hbsb : b = sb
  · simp only [hbsb, if_pos rfl]
    exact hj1 hbsb
  · simp [hbsb]

/-- If the block loop ran to completion (no early return) and no stop is
observed at its final clock, then every sentence of every non-empty block from
`b` on (from `ss` in the start block `sb`) was played successfully. -/
lemma run_blocks_complete (data : List (List String)) (sb ss : Nat) (stopT : Option Nat)
    (audioRes playRes : Nat → Nat → Bool) :
    ∀ fuel b t,
    (run_blocks data sb ss stopT audioRes playRes fuel b t).2.2 = false →
    stopped stopT (run_blocks data sb ss stopT audioRes playRes fuel b t).2.1 = false →
    ∀ b' s', b ≤ b' → valid_sent data (b', s') → (b' = sb → ss ≤ s') →
    Ev.played b' s' true ∈ (run_blocks data sb ss stopT audioRes playRes fuel b t).1 := by
  intro fuel
  induction fuel with
  | zero => intro b t h; simp [run_blocks] at h
  | succ fuel ih =>
    intro b t hearly hstop b' s' hbb hvalid hsb
    simp only [run_blocks] at hearly hstop ⊢
    split_ifs at hearly hstop ⊢ with h1 h2 h3 h4 h5
    · exfalso
      have : stopped stopT (t + 1) = true := stopped_mono (by omega) h2
      rw [this] at hstop
      exact Bool.true_eq_false.mp hstop
    · rcases Nat.eq_or_lt_of_le hbb with rfl | hlt
      · exfalso
        rcases hvalid with ⟨_, hv2⟩
        rw [h3] at hv2
        omega
      · exact ih (b + 1) (t + 1) hearly hstop b' s' hlt hvalid hsb
    · simp only at hearly hstop ⊢
      rcases Nat.eq_or_lt_of_le hbb with heq | hlt
      · subst heq
        exact List.mem_append.mpr (Or.inl (block_inner_complete data sb ss stopT
          audioRes playRes b t (Bool.not_eq_true _ ▸ h4) s' hsb hvalid.2))
      · exact List.mem_append.mpr (Or.inr (ih (b + 1) _ hearly hstop b' s' hlt hvalid hsb))
    · exfalso
      exact h1 (lt_of_le_of_lt hbb hvalid.1)

/-- C1. If `TTSWorker.run` emits `finished`, then (a) any stop request came
strictly after the final completion check — contrapositively, a stop requested
at or before the final check (via `_stop_flag` or the backend's
`_stop_requested`) means `finished` is never emitted — and (b) every sentence
of every block from the start position was played successfully. -/
theorem c1_finished_only_after_full_unstopped_run (data : List (List String)) (sb ss : Nat)
    (stopT : Option Nat) (audioRes playRes : Nat → Nat → Bool)
    (h : Ev.finished ∈ (run_worker data sb ss stopT audioRes playRes).1) :
    (∀ t0, stopT = some t0 → (run_worker data sb ss stopT audioRes playRes).2 < t0)
    ∧ ∀ b s, valid_sent data (b, s) → key_le (sb, ss) (b, s) →
        Ev.played b s true ∈ (run_worker data sb ss stopT audioRes playRes).1 := by
  unfold run_worker at h ⊢
  simp only at h ⊢
  split_ifs at h ⊢ with h1 h2
  · exact absurd h (finished_not_mem_run_blocks _ _ _ _ _ _ _ _ _)
  · exact absurd h (finished_not_mem_run_blocks _ _ _ _ _ _ _ _ _)
  · constructor
    · intro t0 ht0
      subst ht0
      simp only [stopped, decide_eq_true_eq] at h2
      simp only []
      omega
    · intro b s hvalid hle
      have hbounds : sb ≤ b ∧ (b = sb → ss ≤ s) := by
        simp only [key_le, key_lt, Prod.mk.injEq] at hle
        constructor
        · rcases hle with (hc | ⟨hc, _⟩) | ⟨hc, _⟩ <;> omega
        · intro hbs
          rcases hle with (hc | ⟨hc, hc2⟩) | ⟨hc, hc2⟩ <;> omega
      refine List.mem_append.mpr (Or.inl ?_)
      exact run_blocks_complete data sb ss stopT audioRes playRes
        (data.length + 1) sb 0 (Bool.not_eq_true _ ▸ h1) (Bool.not_eq_true _ ▸ h2)
        b s hbounds.1 hvalid hbounds.2

/-- Witness for C1 at a concrete input: a one-block, two-sentence document with
no stop request and all plays succeeding emits `finished`, and the theorem
yields that sentence `(0, 1)` was played. -/
theorem c1_witness :
    Ev.played 0 1 true ∈
      (run_worker [["a", "b"]] 0 0 none (fun _ _ => true) (fun _ _ => true)).1 :=
  (c1_finished_only_after_full_unstopped_run [["a", "b"]] 0 0 none
    (fun _ _ => true) (fun _ _ => true) (by decide)).2 0 1 (by decide) (by decide)

/-! ## The manager's reaction to worker signals (C2) -/

/-- The slice of `TTSManager` state driven by the worker's signals. -/
structure ListenerState where
  is_speaking : Bool
  is_navigating : Bool
  index : Key
deriving DecidableEq

/-- One signal delivery: `highlight_current_sentence` (connected to
`sentence_started`) updates the sentence index via `set_sentence_index`;
`on_speech_finished` clears `is_speaking` unless a navigation is in progress;
`on_speech_error` clears `is_speaking` unconditionally. -/
def apply_ev (st : ListenerState) : Ev → ListenerState
  | .started b s => { st with index := (b, s) }
  | .played _ _ _ => st
  | .errored => { st with is_speaking := false }
  | .finished => if st.is_navigating then st else { st with is_speaking := false }

def apply_evs (st : ListenerState) (evs : List Ev) : ListenerState :=
  evs.foldl apply_ev st

/-- The worker run of scenario C: a one-block, two-sentence document where
synthesis fails for the second sentence (`_generate_audio_for_sentence` returns
`None` for key `(0, 1)`), no stop requested, plays succeeding. -/
def c2_trace : List Ev :=
  (run_worker [["s1", "s2"]] 0 0 none (fun b s => !(b == 0 && s == 1)) (fun _ _ => true)).1

/-- C2 (the code's actual behaviour at the failing input). When synthesis fails
for sentence `(0, 1)` after its `sentence_started` was emitted, the worker
returns silently — no `error` signal and no `finished` signal — so after
processing, the manager still has `is_speaking = true` with the current
position at `(0, 1)`: `playbackErrored` is emitted zero times, not once, and
`isSpeaking()` does not become false. -/
theorem c2_synthesis_failure_swallowed :
    c2_trace = [Ev.started 0 0, Ev.played 0 0 true, Ev.started 0 1]
    ∧ c2_trace.count Ev.errored = 0
    ∧ Ev.finished ∉ c2_trace
    ∧ apply_evs ⟨true, false, (0, 0)⟩ c2_trace = ⟨true, false, (0, 1)⟩ := by
  decide

/-! ## The audio device loop: `TTSWorker._play_audio_file` (C8) -/

/-- Observable device actions of `_play_audio_file`: starting playback
(`sd.play`), one 10 ms polling sleep, and an explicit device stop
(`sd.stop()`). -/
inductive DevEv where
  | playStart
  | sleep
  | deviceStop
deriving DecidableEq

/-- The polling loop of `_play_audio_file` (source line 334): while the stream
is active and no stop flag is observed, sleep 10 ms. `fuel` is the remaining
active duration of the stream in 10 ms ticks (a sounddevice stream plays for
the artifact's duration and then reports inactive). Returns (sleep events,
instant at which the loop condition failed). -/
def play_wait_loop (stopT : Option Nat) : Nat → Nat → List DevEv × Nat
  | 0, t => ([], t)
  | fuel + 1, t =>
    if stopped stopT t then ([], t)
    else
      let rest := play_wait_loop stopT fuel (t + 1)
      (DevEv.sleep :: rest.1, rest.2)

/-- `TTSWorker._play_audio_file` (source lines 316-353) under the audio device
lock: check the stop flags before playing; start playback; poll every 10 ms
while the stream is active; after the loop, only when a stop is observed, issue
an explicit device stop and fail. `dur` is the artifact's play duration in
10 ms ticks. Returns (success, device events, final instant). -/
def play_audio_file (stopT : Option Nat) (dur t : Nat) : Bool × List DevEv × Nat :=
  if stopped stopT t then (false, [], t + 1)
  else
    let w := play_wait_loop stopT dur (t + 1)
    if stopped stopT w.2 then
      (false, DevEv.playStart :: w.1 ++ [DevEv.deviceStop], w.2 + 1)
    else (true, DevEv.playStart :: w.1, w.2 + 1)

/-- How many polling iterations the wait loop performs when entered at instant
`t` with `dur` ticks of stream activity left: all `dur` of them, unless a stop
request cuts the loop short. -/
def polls_before (stopT : Option Nat) (t dur : Nat) : Nat :=
  match stopT with
  | none => dur
  | some t0 => min dur (t0 - t)

lemma play_wait_loop_eq (stopT : Option Nat) :
    ∀ fuel t, play_wait_loop stopT fuel t
      = (List.replicate (polls_before stopT t fuel) DevEv.sleep, t + polls_before stopT t fuel) := by
  intro fuel
  induction fuel with
  | zero =>
    intro t
    cases stopT <;> simp [play_wait_loop, polls_before]
  | succ fuel ih =>
    intro t
    simp only [play_wait_loop]
    split_ifs with h1
    · cases stopT with
      | none => simp [stopped] at h1
      | some t0 =>
        simp only [stopped, decide_eq_true_eq] at h1
        have : polls_before (some t0) t (fuel + 1) = 0 := by
          simp only [polls_before]; omega
        simp [this]
    · rw [ih (t + 1)]
      cases stopT with
      | none =>
        dsimp only
        simp only [polls_before, List.replicate_succ, Prod.mk.injEq, true_and]
        omega
      | some t0 =>
        simp only [stopped, decide_eq_true_eq] at h1
        have hpoll : polls_before (some t0) t (fuel + 1)
            = polls_before (some t0) (t + 1) fuel + 1 := by
          simp only [polls_before]; omega
        rw [hpoll, List.replicate_succ]
        dsimp only
        simp only [Prod.mk.injEq, true_and]
        omega

/-- C8 as amended: `_play_audio_file` polls the stop flags with a 10 ms sleep
once per tick of stream activity (until a stop request cuts it short); it
issues an explicit device stop exactly when it fails after playback started
(stop observed at the post-loop check), and on normal completion it returns
success with **no** device stop issued; it fails without even starting
playback when a stop is already observed at entry. -/
theorem c8_play_loop_behaviour (stopT : Option Nat) (dur t : Nat) :
    ((play_audio_file stopT dur t).2.1.count DevEv.deviceStop
      = if (play_audio_file stopT dur t).1 then 0
        else if stopped stopT t then 0 else 1)
    ∧ ((play_audio_file stopT dur t).2.1.count DevEv.sleep
      = if stopped stopT t then 0 else polls_before stopT (t + 1) dur)
    ∧ ((play_audio_file stopT dur t).1
      = (!stopped stopT t && !stopped stopT (t + 1 + polls_before stopT (t + 1) dur))) := by
  unfold play_audio_file
  rw [play_wait_loop_eq]
  by_cases h1 : stopped stopT t = true
  · simp [h1]
  · by_cases h2 : stopped stopT (t + 1 + polls_before stopT (t + 1) dur) = true
    · simp [h1, h2, List.count_cons, List.count_append, List.count_replicate]
    · simp [h1, h2, List.count_cons, List.count_append, List.count_replicate]

/-- C8 counterexample to the claim as stated: a playback that completes
normally (no stop request, 3 ticks of activity) returns success but issues no
explicit device stop — the `sd.stop()` call happens only on the cancellation
path, not on normal completion. -/
theorem c8_counterexample :
    (play_audio_file none 3 0).1 = true
    ∧ DevEv.deviceStop ∉ (play_audio_file none 3 0).2.1
    ∧ (play_audio_file none 3 0).2.1.count DevEv.sleep = 3 := by
  decide

/-! ## `KokoroTTS._fix_wav_header` (C10) -/

/-- The byte at index `i` of a file modelled as a list of bytes (0 when out of
range; reads in the embedding only ever happen in range). -/
def byte_at (l : List Nat) (i : Nat) : Nat := (l.get? i).getD 0

/-- A 4-byte little-endian unsigned integer read at offset `off`
(`struct.unpack` with format `<I`). -/
def read_le32 (l : List Nat) (off : Nat) : Nat :=
  byte_at l off + 256 * byte_at l (off + 1) + 65536 * byte_at l (off + 2)
    + 16777216 * byte_at l (off + 3)

/-- Write a 4-byte little-endian unsigned integer at offset `off`
(`struct.pack` with format `<I` followed by `f.write`). -/
def write_le32 (l : List Nat) (off v : Nat) : List Nat :=
  (((l.set off (v % 256)).set (off + 1) (v / 256 % 256)).set (off + 2)
    (v / 65536 % 256)).set (off + 3) (v / 16777216 % 256)

/-- The initial 12-byte check of `_fix_wav_header`: the file must begin with
`RIFF` and carry `WAVE` at bytes 8-11 (a shorter file cannot pass). -/
def header_ok (f : List Nat) : Bool :=
  decide (f.take 4 = [82, 73, 70, 70]) && decide ((f.drop 8).take 4 = [87, 65, 86, 69])

/-- The chunk scan of `_fix_wav_header`: from `pos`, read an 8-byte chunk
header (fail like the Python `ValueError` when fewer than 8 bytes remain); on
chunk id `data` return the chunk position, otherwise skip the chunk's payload.
The fuel `f.length` always suffices, as every step advances `pos` by at
least 8. -/
def find_data_go (f : List Nat) : Nat → Nat → Option Nat
  | 0, _ => none
  | fuel + 1, pos =>
    if pos + 8 ≤ f.length then
      if (f.drop pos).take 4 = [100, 97, 116, 97] then some pos
      else find_data_go f fuel (pos + 8 + read_le32 f (pos + 4))
    else none

def find_data (f : List Nat) (pos : Nat) : Option Nat := find_data_go f f.length pos

/-- `KokoroTTS._fix_wav_header` (source lines 196-224): validate the RIFF/WAVE
header, scan for the `data` chunk, then patch the RIFF chunk size at offset 4
to the file size minus 8 and the data chunk's size field to the number of
bytes following the data chunk header. `none` models the raised `ValueError`.
(The `% 2 ^ 32` mirrors the 32-bit width of `struct.pack <I`; files under
4 GiB are unaffected.) -/
def fix_wav_header (f : List Nat) : Option (List Nat) :=
  if header_ok f then
    match find_data f 12 with
    | some p =>
      some (write_le32 (write_le32 f 4 ((f.length - 8) % 4294967296)) (p + 4)
        ((f.length - (p + 8)) % 4294967296))
    | none => none
  else none

lemma find_data_go_bounds (f : List Nat) :
    ∀ fuel pos p, find_data_go f fuel pos = some p → pos ≤ p ∧ p + 8 ≤ f.length := by
  intro fuel
  induction fuel with
  | zero => intro pos p h; simp [find_data_go] at h
  | succ fuel ih =>
    intro pos p h
    simp only [find_data_go] at h
    split_ifs at h with h1 h2
    · have := Option.some.inj h
      omega
    · have := ih _ _ h
      omega

lemma get?_write_le32_ne (l : List Nat) (off v i : Nat) (h : i < off ∨ off + 4 ≤ i) :
    (write_le32 l off v).get? i = l.get? i := by
  unfold write_le32
  rw [List.get?_set_ne _ _ (show off + 3 ≠ i by omega),
    List.get?_set_ne _ _ (show off + 2 ≠ i by omega),
    List.get?_set_ne _ _ (show off + 1 ≠ i by omega),
    List.get?_set_ne _ _ (show off ≠ i by omega)]

lemma byte_at_write_le32_ne (l : List Nat) (off v i : Nat) (h : i < off ∨ off + 4 ≤ i) :
    byte_at (write_le32 l off v) i = byte_at l i := by
  unfold byte_at
  rw [get?_write_le32_ne _ _ _ _ h]

lemma read_le32_write_le32_ne (l : List Nat) (off v i : Nat)
    (h : i + 4 ≤ off ∨ off + 4 ≤ i) :
    read_le32 (write_le32 l off v) i = read_le32 l i := by
  unfold read_le32
  rw [byte_at_write_le32_ne _ _ _ _ (by omega), byte_at_write_le32_ne _ _ _ _ (by omega),
    byte_at_write_le32_ne _ _ _ _ (by omega), byte_at_write_le32_ne _ _ _ _ (by omega)]

lemma length_write_le32 (l : List Nat) (off v : Nat) :
    (write_le32 l off v).length = l.length := by
  simp [write_le32]

lemma byte_at_set_eq (l : List Nat) (j v : Nat) (hj : j < l.length) :
    byte_at (l.set j v) j = v := by
  unfold byte_at
  rw [List.get?_set_eq_of_lt _ hj]
  rfl

lemma byte_at_set_ne (l : List Nat) (j v i : Nat) (h : j ≠ i) :
    byte_at (l.set j v) i = byte_at l i := by
  unfold byte_at
  rw [List.get?_set_ne _ _ h]

lemma byte_at_write_le32_at0 (l : List Nat) (off v : Nat) (hoff : off + 4 ≤ l.length) :
    byte_at (write_le32 l off v) off = v % 256 := by
  unfold write_le32
  rw [byte_at_set_ne _ _ _ _ (show off + 3 ≠ off by omega),
    byte_at_set_ne _ _ _ _ (show off + 2 ≠ off by omega),
    byte_at_set_ne _ _ _ _ (show off + 1 ≠ off by omega)]
  exact byte_at_set_eq _ _ _ (by omega)

lemma byte_at_write_le32_at1 (l : List Nat) (off v : Nat) (hoff : off + 4 ≤ l.length) :
    byte_at (write_le32 l off v) (off + 1) = v / 256 % 256 := by
  unfold write_le32
  rw [byte_at_set_ne _ _ _ _ (show off + 3 ≠ off + 1 by omega),
    byte_at_set_ne _ _ _ _ (show off + 2 ≠ off + 1 by omega)]
  exact byte_at_set_eq _ _ _ (by simp only [List.length_set]; omega)

lemma byte_at_write_le32_at2 (l : List Nat) (off v : Nat) (hoff : off + 4 ≤ l.length) :
    byte_at (write_le32 l off v) (off + 2) = v / 65536 % 256 := by
  unfold write_le32
  rw [byte_at_set_ne _ _ _ _ (show off + 3 ≠ off + 2 by omega)]
  exact byte_at_set_eq _ _ _ (by simp only [List.length_set]; omega)

lemma byte_at_write_le32_at3 (l : List Nat) (off v : Nat) (hoff : off + 4 ≤ l.length) :
    byte_at (write_le32 l off v) (off + 3) = v / 16777216 % 256 := by
  unfold write_le32
  exact byte_at_set_eq _ _ _ (by simp only [List.length_set]; omega)

lemma read_le32_write_le32_eq (l : List Nat) (off v : Nat) (hoff : off + 4 ≤ l.length)
    (hv : v < 4294967296) :
    read_le32 (write_le32 l off v) off = v := by
  unfold read_le32
  rw [byte_at_write_le32_at0 _ _ _ hoff, byte_at_write_le32_at1 _ _ _ hoff,
    byte_at_write_le32_at2 _ _ _ hoff, byte_at_write_le32_at3 _ _ _ hoff]
  omega

/-- C10. `_fix_wav_header` fails (Python `ValueError`) when the file does not
start with a `RIFF`…`WAVE` header or the chunk scan finds no `data` chunk;
otherwise it rewrites exactly two 4-byte little-endian fields — the RIFF chunk
size at offset 4 becomes the file size minus 8, and the data chunk's size
field at `p + 4` becomes the number of bytes following the data chunk header —
leaving length and every other byte unchanged. -/
theorem c10_fix_wav_header_patches_two_size_fields (f : List Nat) (p : Nat) (r : List Nat)
    (hlen : f.length < 4294967296)
    (hp : find_data f 12 = some p)
    (hr : fix_wav_header f = some r) :
    (∀ g : List Nat, header_ok g = false → fix_wav_header g = none)
    ∧ (∀ g : List Nat, find_data g 12 = none → fix_wav_header g = none)
    ∧ r.length = f.length
    ∧ read_le32 r 4 = f.length - 8
    ∧ read_le32 r (p + 4) = f.length - (p + 8)
    ∧ ∀ i, i < 4 ∨ 8 ≤ i → i < p + 4 ∨ p + 8 ≤ i → r.get? i = f.get? i := by
  have hbounds : 12 ≤ p ∧ p + 8 ≤ f.length := find_data_go_bounds f f.length 12 p hp
  unfold fix_wav_header at hr
  rw [hp] at hr
  split_ifs at hr with hh
  · have hr' := Option.some.inj hr
    subst hr'
    refine ⟨?_, ?_, ?_, ?_, ?_, ?_⟩
    · intro g hg
      simp [fix_wav_header, hg]
    · intro g hg
      unfold fix_wav_header
      split_ifs with hgh
      · rw [hg]
      · rfl
    · rw [length_write_le32, length_write_le32]
    · rw [read_le32_write_le32_ne _ _ _ _ (by omega),
        read_le32_write_le32_eq _ _ _ (by omega) (by omega)]
      omega
    · rw [read_le32_write_le32_eq _ _ _ (by rw [length_write_le32]; omega) (by omega)]
      omega
    · intro i hi1 hi2
      rw [get?_write_le32_ne _ _ _ _ (by omega), get?_write_le32_ne _ _ _ _ (by omega)]

/-- Witness for C10: a minimal 24-byte WAV file (12-byte RIFF/WAVE header, one
`data` chunk with 4 payload bytes, both size fields wrong on entry) is patched
to RIFF size 16 and data size 4 with the payload untouched. -/
theorem c10_witness :
    read_le32 (write_le32 (write_le32
        [82, 73, 70, 70, 9, 9, 9, 9, 87, 65, 86, 69,
         100, 97, 116, 97, 9, 9, 9, 9, 1, 2, 3, 4] 4 (16 % 4294967296)) 16
        (4 % 4294967296)) 4 = 16
    ∧ (fix_wav_header
        [82, 73, 70, 70, 9, 9, 9, 9, 87, 65, 86, 69,
         100, 97, 116, 97, 9, 9, 9, 9, 1, 2, 3, 4]).isSome = true := by
  constructor
  · have h := (c10_fix_wav_header_patches_two_size_fields
      [82, 73, 70, 70, 9, 9, 9, 9, 87, 65, 86, 69,
       100, 97, 116, 97, 9, 9, 9, 9, 1, 2, 3, 4] 12
      (write_le32 (write_le32
        [82, 73, 70, 70, 9, 9, 9, 9, 87, 65, 86, 69,
         100, 97, 116, 97, 9, 9, 9, 9, 1, 2, 3, 4] 4 (16 % 4294967296)) 16
        (4 % 4294967296))
      (by decide) (by decide) (by decide)).2.2.2.1
    simpa using h
  · decide

/-! ## `TTSWorker._get_next_sentences` (C9) -/

/-- The loop of `_get_next_sentences` (source lines 182-202): from block `b`
and sentence `s`, take sentences of the current block until `need` keys are
collected or the block is exhausted; when the block is exhausted, move to the
next block at sentence 0. One fuel unit per block; the wrapper's fuel always
suffices. -/
def gns_go (data : List (List String)) : Nat → Nat → Nat → Nat → List Key
  | 0, _, _, _ => []
  | fuel + 1, b, s, need =>
    if b < data.length then
      if s + min need ((data.getD b []).length - s) ≥ (data.getD b []).length then
        (List.range' s (min need ((data.getD b []).length - s))).map (fun i => (b, i))
          ++ gns_go data fuel (b + 1) 0 (need - min need ((data.getD b []).length - s))
      else
        (List.range' s (min need ((data.getD b []).length - s))).map (fun i => (b, i))
    else []

/-- `TTSWorker._get_next_sentences data current_block current_sent count`:
the next `count` sentence keys strictly after `(current_block, current_sent)`
(the scan starts at `current_sent + 1`, source line 186). -/
def get_next_sentences (data : List (List String)) (current_block current_sent count : Nat) :
    List Key :=
  gns_go data (data.length + 1 - current_block) current_block (current_sent + 1) count

/-- Specification list: all valid sentence keys from `(b, s)` on (sentence
indices `≥ s` in block `b`, then every sentence of the later blocks), in key
order. -/
def keys_from (data : List (List String)) (b s : Nat) : List Key :=
  if _h : b < data.length then
    (List.range' s ((data.getD b []).length - s)).map (fun i => (b, i))
      ++ keys_from data (b + 1) 0
  else []
termination_by data.length - b

lemma take_range'_1 (s L n : Nat) : (List.range' s L).take n = List.range' s (min n L) := by
  induction L generalizing s n with
  | zero => simp
  | succ L ih =>
    cases n with
    | zero => simp
    | succ n =>
      rw [List.range'_succ, List.take_succ_cons, ih (s + 1) n,
        show min (n + 1) (L + 1) = min n L + 1 by omega, List.range'_succ]

/-- The loop of `_get_next_sentences` computes exactly the first `need` keys
after its start position. -/
lemma gns_go_eq_take (data : List (List String)) :
    ∀ fuel b s need, data.length ≤ b + fuel →
    gns_go data fuel b s need = (keys_from data b s).take need := by
  intro fuel
  induction fuel with
  | zero =>
    intro b s need h
    rw [keys_from, dif_neg (by omega)]
    simp [gns_go]
  | succ fuel ih =>
    intro b s need hf
    by_cases hb : b < data.length
    · rw [keys_from, dif_pos hb]
      simp only [gns_go, if_pos hb]
      by_cases hcross : s + min need ((data.getD b []).length - s) ≥ (data.getD b []).length
      · rw [if_pos hcross, ih (b + 1) 0 _ (by omega)]
        rw [List.take_append_eq_append_take]
        congr 1
        · rw [← List.map_take, take_range'_1]
        · congr 1
          rw [List.length_map, List.length_range']
          omega
      · rw [if_neg hcross]
        rw [List.take_append_eq_append_take]
        rw [← List.map_take, take_range'_1]
        rw [List.length_map, List.length_range']
        rw [show need - ((data.getD b []).length - s) = 0 by omega, List.take_zero,
          List.append_nil, show min need ((data.getD b []).length - s) = need by omega]
    · rw [keys_from, dif_neg hb]
      simp [gns_go, hb]

/-- Every key listed by `keys_from data b s` is a valid sentence key at or
after position `(b, s)`. -/
lemma keys_from_mem (data : List (List String)) :
    ∀ n b s, data.length ≤ b + n →
    ∀ k ∈ keys_from data b s,
      valid_sent data k ∧ (b < k.1 ∨ (k.1 = b ∧ s ≤ k.2)) := by
  intro n
  induction n with
  | zero =>
    intro b s h k hk
    rw [keys_from, dif_neg (by omega)] at hk
    simp at hk
  | succ n ih =>
    intro b s hf k hk
    by_cases hb : b < data.length
    · rw [keys_from, dif_pos hb] at hk
      rcases List.mem_append.mp hk with hk | hk
      · rcases List.mem_map.mp hk with ⟨i, hi, rfl⟩
        rw [List.mem_range'_1] at hi
        refine ⟨⟨hb, ?_⟩, Or.inr ⟨rfl, hi.1⟩⟩
        show i < (data.getD b []).length
        omega
      · have h2 := ih (b + 1) 0 (by omega) k hk
        refine ⟨h2.1, Or.inl ?_⟩
        rcases h2.2 with h3 | ⟨h3, _⟩ <;> omega
    · rw [keys_from, dif_neg hb] at hk
      simp at hk

/-- `keys_from` is strictly sorted in key order. -/
lemma keys_from_sorted (data : List (List String)) :
    ∀ n b s, data.length ≤ b + n →
    List.Pairwise key_lt (keys_from data b s) := by
  intro n
  induction n with
  | zero =>
    intro b s h
    rw [keys_from, dif_neg (by omega)]
    simp
  | succ n ih =>
    intro b s hf
    by_cases hb : b < data.length
    · rw [keys_from, dif_pos hb]
      rw [List.pairwise_append]
      refine ⟨?_, ih (b + 1) 0 (by omega), ?_⟩
      · refine List.Pairwise.map _ (fun a c h => ?_) (List.pairwise_lt_range' s _ 1 (by simp))
        exact Or.inr ⟨rfl, h⟩
      · intro x hx y hy
        rcases List.mem_map.mp hx with ⟨i, _, rfl⟩
        have h2 := (keys_from_mem data (n + 1) (b + 1) 0 (by omega) y hy).2
        refine Or.inl ?_
        rcases h2 with h3 | ⟨h3, _⟩ <;> simp <;> omega
    · rw [keys_from, dif_neg hb]
      simp

/-- Every valid sentence key at or after `(b, s)` is listed by `keys_from`. -/
lemma keys_from_complete (data : List (List String)) :
    ∀ n b s, data.length ≤ b + n →
    ∀ kb ks, valid_sent data (kb, ks) → (b < kb ∨ (kb = b ∧ s ≤ ks)) →
    (kb, ks) ∈ keys_from data b s := by
  intro n
  induction n with
  | zero =>
    intro b s h kb ks hv hc
    exfalso
    have := hv.1
    simp only at this
    omega
  | succ n ih =>
    intro b s hf kb ks hv hc
    have hkb : kb < data.length := hv.1
    have hks : ks < (data.getD kb []).length := hv.2
    by_cases hb : b < data.length
    · rw [keys_from, dif_pos hb]
      refine List.mem_append.mpr ?_
      rcases hc with hgt | ⟨heq, hge⟩
      · refine Or.inr (ih (b + 1) 0 (by omega) kb ks hv (by omega))
      · subst heq
        refine Or.inl (List.mem_map.mpr ⟨ks, List.mem_range'_1.mpr ⟨hge, by omega⟩, rfl⟩)
    · exact absurd hkb (by omega)

/-- Keys compare in only one of three ways. -/
lemma key_trichotomy (j k : Key) : key_lt j k ∨ j = k ∨ key_lt k j := by
  obtain ⟨a, b⟩ := j
  obtain ⟨c, d⟩ := k
  simp only [key_lt, Prod.mk.injEq]
  omega

/-- C9. `_get_next_sentences data cb cs count` returns at most `count` keys;
they are strictly increasing in the (block, sentence) order; each is strictly
after `(cb, cs)` and addresses an existing sentence of a non-empty block; and
no valid key lying between `(cb, cs)` and any returned key is omitted. -/
theorem c9_get_next_sentences_sound_and_complete
    (data : List (List String)) (cb cs count : Nat) :
    (get_next_sentences data cb cs count).length ≤ count
    ∧ List.Pairwise key_lt (get_next_sentences data cb cs count)
    ∧ (∀ k ∈ get_next_sentences data cb cs count, key_lt (cb, cs) k ∧ valid_sent data k)
    ∧ (∀ k m, valid_sent data k → key_lt (cb, cs) k →
        m ∈ get_next_sentences data cb cs count → key_le k m →
        k ∈ get_next_sentences data cb cs count) := by
  have hfuel : data.length ≤ cb + (data.length + 1 - cb) := by omega
  have heq : get_next_sentences data cb cs count
      = (keys_from data cb (cs + 1)).take count :=
    gns_go_eq_take data _ cb (cs + 1) count hfuel
  have hsorted : List.Pairwise key_lt (keys_from data cb (cs + 1)) :=
    keys_from_sorted data (data.length + 1 - cb) cb (cs + 1) hfuel
  refine ⟨?_, ?_, ?_, ?_⟩
  · rw [heq, List.length_take]
    omega
  · rw [heq]
    exact List.Pairwise.sublist (List.take_sublist _ _) hsorted
  · intro k hk
    rw [heq] at hk
    have hmem := keys_from_mem data (data.length + 1 - cb) cb (cs + 1) hfuel k
      (List.mem_of_mem_take hk)
    refine ⟨?_, hmem.1⟩
    obtain ⟨kb, ks⟩ := k
    simp only [key_lt]
    rcases hmem.2 with h | ⟨h, h2⟩
    · exact Or.inl h
    · exact Or.inr ⟨h.symm, by omega⟩
  · intro k m hkv hklt hm hkm
    rw [heq] at hm ⊢
    obtain ⟨kb, ks⟩ := k
    have hkmem : (kb, ks) ∈ keys_from data cb (cs + 1) := by
      refine keys_from_complete data (data.length + 1 - cb) cb (cs + 1) hfuel kb ks hkv ?_
      rcases hklt with h | ⟨h, h2⟩
      · exact Or.inl h
      · exact Or.inr ⟨h.symm, by omega⟩
    rcases List.mem_iff_get?.mp hkmem with ⟨ik, hik⟩
    rcases List.mem_iff_get?.mp hm with ⟨im, him⟩
    have him' : (keys_from data cb (cs + 1)).get? im = some m := by
      have hlt : im < count := by
        rcases List.get?_eq_some.mp him with ⟨hbound, _⟩
        have := List.length_take count (keys_from data cb (cs + 1))
        omega
      rw [← List.get?_take hlt]
      exact him
    have hik_le : ik ≤ im := by
      by_contra hcon
      push_neg at hcon
      rcases List.get?_eq_some.mp hik with ⟨hik_lt, hik_get⟩
      rcases List.get?_eq_some.mp him' with ⟨him_lt, him_get⟩
      have hpair := List.pairwise_iff_get.mp hsorted ⟨im, him_lt⟩ ⟨ik, hik_lt⟩ hcon
      rw [hik_get, him_get] at hpair
      obtain ⟨mb, ms⟩ := m
      rcases hkm with hkm | hkm
      · simp only [key_lt] at hpair hkm
        rcases hpair with h | ⟨h, h2⟩ <;> rcases hkm with h3 | ⟨h3, h4⟩ <;> omega
      · rw [hkm] at hpair
        simp only [key_lt] at hpair
        rcases hpair with h | ⟨h, h2⟩ <;> omega
    have him_lt : im < count := by
      rcases List.get?_eq_some.mp him with ⟨hbound, _⟩
      have := List.length_take count (keys_from data cb (cs + 1))
      omega
    have : ((keys_from data cb (cs + 1)).take count).get? ik = some (kb, ks) := by
      rw [List.get?_take (by omega)]
      exact hik
    exact List.get?_mem this

/-! ## Sentence-order index and the read-ahead buffer session model (C6) -/

/-- The flattened position of key `k` in document order: the number of
sentences in the blocks before `k`'s block plus `k`'s sentence index. -/
def key_idx (data : List (List String)) (k : Key) : Nat :=
  ((data.take k.1).map List.length).sum + k.2

lemma sum_take_succ_len (data : List (List String)) :
    ∀ b, b < data.length →
    ((data.take (b + 1)).map List.length).sum
      = ((data.take b).map List.length).sum + (data.getD b []).length := by
  induction data with
  | nil => intro b h; simp at h
  | cons blk rest ih =>
    intro b h
    cases b with
    | zero => simp
    | succ b =>
      simp only [List.take_succ_cons, List.map_cons, List.sum_cons, List.getD_cons_succ]
      rw [ih b (by simpa using h)]
      omega

lemma sum_take_mono (data : List (List String)) {m m' : Nat} (h : m ≤ m') :
    ((data.take m).map List.length).sum ≤ ((data.take m').map List.length).sum := by
  induction m', h using Nat.le_induction with
  | base => exact le_refl _
  | succ m' hm ih =>
    by_cases hlen : m' < data.length
    · rw [sum_take_succ_len data m' hlen]
      omega
    · have heq2 : data.take (m' + 1) = data.take m' := by
        rw [List.take_of_length_le (by omega), List.take_of_length_le (by omega)]
      rw [heq2]
      exact ih

/-- On valid keys, the flattened index is strictly monotone in key order. -/
lemma key_idx_lt_of_key_lt (data : List (List String)) {j k : Key}
    (hj : valid_sent data j) (h : key_lt j k) :
    key_idx data j < key_idx data k := by
  obtain ⟨jb, js⟩ := j
  obtain ⟨kb, ks⟩ := k
  have hj1 : jb < data.length := hj.1
  have hj2 : js < (data.getD jb []).length := hj.2
  rcases h with h | ⟨h, h2⟩
  · have h1 : ((data.take (jb + 1)).map List.length).sum
        = ((data.take jb).map List.length).sum + (data.getD jb []).length :=
      sum_take_succ_len data jb hj1
    have h2' : ((data.take (jb + 1)).map List.length).sum
        ≤ ((data.take kb).map List.length).sum := sum_take_mono data (by omega)
    simp only [key_idx]
    omega
  · simp only at h
    subst h
    simp only [key_idx]
    omega

/-- On valid keys the flattened index reflects key order. -/
lemma key_lt_of_key_idx_lt (data : List (List String)) {j k : Key}
    (hk : valid_sent data k) (h : key_idx data j < key_idx data k) :
    key_lt j k := by
  rcases key_trichotomy j k with hc | hc | hc
  · exact hc
  · subst hc; omega
  · exact absurd (key_idx_lt_of_key_lt data hk hc) (by omega)

lemma key_idx_injOn (data : List (List String)) {j k : Key}
    (hj : valid_sent data j) (hk : valid_sent data k)
    (h : key_idx data j = key_idx data k) : j = k := by
  rcases key_trichotomy j k with hc | hc | hc
  · exact absurd (key_idx_lt_of_key_lt data hj hc) (by omega)
  · exact hc
  · exact absurd (key_idx_lt_of_key_lt data hk hc) (by omega)

/-- The `m`-th key of `keys_from data b s` sits at flattened index
(base of block `b`) + `s` + `m`. -/
lemma keys_from_get?_idx (data : List (List String)) :
    ∀ n b s, data.length ≤ b + n → s ≤ (data.getD b []).length →
    ∀ m k, (keys_from data b s).get? m = some k →
    key_idx data k = ((data.take b).map List.length).sum + s + m := by
  intro n
  induction n with
  | zero =>
    intro b s hf hs m k h
    rw [keys_from, dif_neg (by omega)] at h
    simp at h
  | succ n ih =>
    intro b s hf hs m k h
    by_cases hb : b < data.length
    · rw [keys_from, dif_pos hb] at h
      by_cases hm : m < (data.getD b []).length - s
      · rw [List.get?_append (by simp only [List.length_map, List.length_range']; omega)] at h
        rw [List.get?_map] at h
        have hr : (List.range' s ((data.getD b []).length - s)).get? m = some (s + m) := by
          rw [List.get?_eq_getElem?]
          simpa using List.getElem?_range' s 1 hm
        rw [hr] at h
        have hk := Option.some.inj h
        rw [← hk]
        simp only [key_idx]
        omega
      · rw [List.get?_append_right
          (by simp only [List.length_map, List.length_range']; omega)] at h
        simp only [List.length_map, List.length_range'] at h
        have h2 := ih (b + 1) 0 (by omega) (Nat.zero_le _) _ k h
        rw [sum_take_succ_len data b hb] at h2
        omega
    · rw [keys_from, dif_neg hb] at h
      simp at h

/-- A key produced by `_get_next_sentences data b s c` from a valid position
`(b, s)` is valid and lies within `c` flattened positions after `(b, s)`. -/
lemma get_next_sentences_idx_bound (data : List (List String)) (b s c : Nat)
    (hpos : valid_sent data (b, s)) {k : Key}
    (hk : k ∈ get_next_sentences data b s c) :
    valid_sent data k
    ∧ key_idx data (b, s) < key_idx data k
    ∧ key_idx data k ≤ key_idx data (b, s) + c := by
  have hfuel : data.length ≤ b + (data.length + 1 - b) := by omega
  have hsle : s + 1 ≤ (data.getD b []).length := hpos.2
  have heq : get_next_sentences data b s c = (keys_from data b (s + 1)).take c :=
    gns_go_eq_take data _ b (s + 1) c hfuel
  rw [heq] at hk
  rcases List.mem_iff_get?.mp hk with ⟨m, hm⟩
  have hmc : m < c := by
    rcases List.get?_eq_some.mp hm with ⟨hbound, _⟩
    have := List.length_take c (keys_from data b (s + 1))
    omega
  have hm' : (keys_from data b (s + 1)).get? m = some k := by
    rw [← List.get?_take hmc]
    exact hm
  have hvalid := (keys_from_mem data (data.length + 1 - b) b (s + 1) hfuel k
    (List.get?_mem hm')).1
  have hidx := keys_from_get?_idx data (data.length + 1 - b) b (s + 1) hfuel hsle m k hm'
  refine ⟨hvalid, ?_, ?_⟩ <;> simp only [key_idx] at * <;> omega

/-! ### The relevance window of `_extract_relevant_buffer_entries` (C3, C6) -/

/-- `abs(a - b)` over Python integers, for natural block/sentence indices. -/
def nat_dist (a b : Nat) : Nat := max a b - min a b

/-- The relevance test of `_extract_relevant_buffer_entries` (source lines
602-613): keep an entry whose block is within 2 blocks of the target, and —
when in the very same block — whose sentence index is within 10 of the
target's. -/
def within_window (target_block target_sent b s : Nat) : Bool :=
  decide (nat_dist b target_block ≤ 2)
    && (if nat_dist b target_block = 0 then decide (nat_dist s target_sent ≤ 10) else true)

/-- `TTSManager._extract_relevant_buffer_entries` (source lines 590-620) over
a buffer modelled as an association list from keys to audio artifact ids:
returns (the extracted entries, what remains in the old buffer). -/
def extract_relevant_buffer_entries (target_block target_sent : Nat)
    (buf : List (Key × Nat)) : List (Key × Nat) × List (Key × Nat) :=
  (buf.filter fun e => within_window target_block target_sent e.1.1 e.1.2,
   buf.filter fun e => !within_window target_block target_sent e.1.1 e.1.2)

/-! ### A single read-ahead session as a transition system -/

/-- The shared state of one (worker, read-ahead) pair: the worker's live
playback position (`_current_playback_position`) and the audio buffer
(`_audio_buffer`), an association list from sentence keys to artifact ids. -/
structure SessState where
  pos : Key
  buffer : List (Key × Nat)
deriving DecidableEq

def buffer_keys (buf : List (Key × Nat)) : List Key := buf.map Prod.fst

/-- `dict.pop(key)`: drop the entry with the given key. -/
def buffer_erase (buf : List (Key × Nat)) (k : Key) : List (Key × Nat) :=
  buf.filter fun e => decide (e.1 ≠ k)

/-- The worker's next sentence: the first key after `pos` in document order,
skipping empty blocks — exactly the head of `_get_next_sentences pos 1`. -/
def next_play_key (data : List (List String)) (k : Key) : Option Key :=
  (get_next_sentences data k.1 k.2 1).head?

/-- One atomic step of a session.
`insert k pObs art`: one iteration of the read-ahead loop body
(`_readahead_worker`, source lines 152-172) buffering key `k`; `pObs` is the
position the loop read at its start — because the worker advances concurrently,
`pObs` may be any valid position at or before the live one. The key is only
inserted when it is among the next 5 sentences after `pObs` and not already
buffered.
`advance`: the worker moves to its next sentence, updating the live position
and taking that key's entry out of the buffer (`_get_audio_for_sentence`,
source lines 204-215). -/
inductive SessOp where
  | insert (k pObs : Key) (art : Nat)
  | advance

def sess_step (data : List (List String)) (st : SessState) : SessOp → SessState
  | .insert k pObs art =>
    if valid_sent data pObs ∧ key_idx data pObs ≤ key_idx data st.pos
        ∧ k ∈ get_next_sentences data pObs.1 pObs.2 5
        ∧ k ∉ buffer_keys st.buffer
    then { st with buffer := st.buffer ++ [(k, art)] }
    else st
  | .advance =>
    match next_play_key data st.pos with
    | some k => { pos := k, buffer := buffer_erase st.buffer k }
    | none => st

def run_sess (data : List (List String)) (st : SessState) (ops : List SessOp) : SessState :=
  ops.foldl (sess_step data) st

/-- The number of buffered entries strictly ahead of the live position. -/
def ahead_count (data : List (List String)) (st : SessState) : Nat :=
  (st.buffer.filter fun e => decide (key_idx data st.pos < key_idx data e.1)).length

/-- The session invariant: the live position is valid, buffered keys are
distinct valid keys, and every buffered key lies at most 5 flattened positions
after the live position. -/
def sess_inv (data : List (List String)) (st : SessState) : Prop :=
  valid_sent data st.pos
  ∧ (buffer_keys st.buffer).Nodup
  ∧ ∀ k ∈ buffer_keys st.buffer,
      valid_sent data k ∧ key_idx data k ≤ key_idx data st.pos + 5

lemma sess_inv_step (data : List (List String)) (st : SessState) (op : SessOp)
    (h : sess_inv data st) : sess_inv data (sess_step data st op) := by
  obtain ⟨hpos, hnodup, hbound⟩ := h
  cases op with
  | insert k pObs art =>
    simp only [sess_step]
    split_ifs with hc
    · obtain ⟨hobs, hole, hmem, hnew⟩ := hc
      obtain ⟨pb, ps⟩ := pObs
      have hk := get_next_sentences_idx_bound data pb ps 5 hobs hmem
      refine ⟨hpos, ?_, ?_⟩
      · show (buffer_keys (st.buffer ++ [(k, art)])).Nodup
        simp only [buffer_keys, List.map_append]
        rw [List.nodup_append]
        refine ⟨hnodup, by simp, ?_⟩
        intro a ha hb
        simp only [List.map_cons, List.map_nil, List.mem_singleton] at hb
        subst hb
        exact hnew ha
      · intro k' hk'
        show valid_sent data k' ∧ key_idx data k' ≤ key_idx data st.pos + 5
        simp only [buffer_keys, List.map_append, List.mem_append] at hk'
        rcases hk' with hk' | hk'
        · exact hbound k' hk'
        · simp only [List.map_cons, List.map_nil, List.mem_singleton] at hk'
          subst hk'
          have hb1 : key_idx data (pb, ps) ≤ key_idx data st.pos := hole
          have hb2 : key_idx data k' ≤ key_idx data (pb, ps) + 5 := hk.2.2
          exact ⟨hk.1, by omega⟩
    · exact ⟨hpos, hnodup, hbound⟩
  | advance =>
    simp only [sess_step, next_play_key]
    cases hh : (get_next_sentences data st.pos.1 st.pos.2 1).head? with
    | none => exact ⟨hpos, hnodup, hbound⟩
    | some k =>
      have hmem : k ∈ get_next_sentences data st.pos.1 st.pos.2 1 := List.mem_of_mem_head? hh
      have hpos' : valid_sent data st.pos := hpos
      have hk := get_next_sentences_idx_bound data st.pos.1 st.pos.2 1
        (by exact hpos') hmem
      refine ⟨hk.1, ?_, ?_⟩
      · refine List.Nodup.sublist ?_ hnodup
        exact List.Sublist.map _ (List.filter_sublist _)
      · intro k' hk'
        simp only [buffer_keys, buffer_erase] at hk'
        rcases List.mem_map.mp hk' with ⟨e, he, rfl⟩
        have he' : e ∈ st.buffer := List.mem_of_mem_filter he
        have hb := hbound e.1 (List.mem_map.mpr ⟨e, he', rfl⟩)
        refine ⟨hb.1, ?_⟩
        have h1 : key_idx data st.pos < key_idx data k := hk.2.1
        have h2 : key_idx data e.1 ≤ key_idx data st.pos + 5 := hb.2
        show key_idx data e.1 ≤ key_idx data k + 5
        omega

lemma sess_inv_run (data : List (List String)) (ops : List SessOp) :
    ∀ st, sess_inv data st → sess_inv data (run_sess data st ops) := by
  induction ops with
  | nil => intro st h; exact h
  | cons op ops ih =>
    intro st h
    exact ih _ (sess_inv_step data st op h)

/-- Under the invariant at most 5 entries sit ahead of the position: their
flattened indices are distinct values in the window `(pos, pos + 5]`. -/
lemma ahead_count_le_of_inv (data : List (List String)) (st : SessState)
    (h : sess_inv data st) : ahead_count data st ≤ 5 := by
  obtain ⟨hpos, hnodup, hbound⟩ := h
  unfold ahead_count
  set p := key_idx data st.pos with hp
  have hsub : (st.buffer.filter fun e => decide (p < key_idx data e.1)).length
      = ((buffer_keys st.buffer).filter fun k => decide (p < key_idx data k)).length := by
    unfold buffer_keys
    rw [List.filter_map]
    rw [List.length_map]
    rfl
  rw [hsub]
  set keys := (buffer_keys st.buffer).filter fun k => decide (p < key_idx data k) with hkeys
  have hkeys_nodup : keys.Nodup := List.Nodup.filter _ hnodup
  have hkeys_mem : ∀ k ∈ keys, valid_sent data k ∧ p < key_idx data k
      ∧ key_idx data k ≤ p + 5 := by
    intro k hk
    have h1 := List.of_mem_filter hk
    have h2 := hbound k (List.mem_of_mem_filter hk)
    simp only [decide_eq_true_eq] at h1
    exact ⟨h2.1, h1, h2.2⟩
  have hidx_nodup : (keys.map (key_idx data)).Nodup := by
    refine List.Nodup.map_on ?_ hkeys_nodup
    intro a ha b hb hab
    exact key_idx_injOn data (hkeys_mem a ha).1 (hkeys_mem b hb).1 hab
  have hlen : keys.length = (keys.map (key_idx data)).toFinset.card := by
    rw [List.toFinset_card_of_nodup hidx_nodup, List.length_map]
  rw [hlen]
  have hsubset : (keys.map (key_idx data)).toFinset ⊆ Finset.Icc (p + 1) (p + 5) := by
    intro x hx
    rw [List.mem_toFinset] at hx
    rcases List.mem_map.mp hx with ⟨k, hk, rfl⟩
    have := hkeys_mem k hk
    rw [Finset.mem_Icc]
    omega
  have := Finset.card_le_card hsubset
  rw [Nat.card_Icc] at this
  omega

/-- C6 as amended: within a single session started from a valid position with
an **empty** buffer, after any sequence of read-ahead insertions and worker
advances the buffer holds at most `K = 5` entries ahead of the live playback
position. (Buffer inheritance across a navigation can break this bound — see
the counterexample.) -/
theorem c6_single_session_ahead_at_most_five (data : List (List String))
    (start : Key) (ops : List SessOp) (h : valid_sent data start) :
    ahead_count data (run_sess data { pos := start, buffer := [] } ops) ≤ 5 := by
  refine ahead_count_le_of_inv data _ (sess_inv_run data ops _ ?_)
  exact ⟨h, by simp [buffer_keys], by simp [buffer_keys]⟩

/-- Witness for the amended C6 at a concrete run: two read-ahead insertions and
one advance on a two-block document. -/
theorem c6_witness :
    ahead_count [["a", "b"], ["c", "d"]]
      (run_sess [["a", "b"], ["c", "d"]] { pos := (0, 0), buffer := [] }
        [SessOp.insert (0, 1) (0, 0) 1, SessOp.insert (1, 0) (0, 0) 2, SessOp.advance]) ≤ 5 :=
  c6_single_session_ahead_at_most_five [["a", "b"], ["c", "d"]] (0, 0)
    [SessOp.insert (0, 1) (0, 0) 1, SessOp.insert (1, 0) (0, 0) 2, SessOp.advance]
    (by decide)

/-- Buffer inheritance at a hot navigation (`_navigate_to_sentence`,
source lines 541-588, with `_start_speaking_from_index` lines 752-757):
when the target key is buffered, the relevance-window entries are extracted
and seeded into the new session, whose worker starts at the target and
consumes the target's own entry when playing it; otherwise nothing is
inherited. -/
def nav_session (st : SessState) (target : Key) : SessState :=
  let preserved :=
    if target ∈ buffer_keys st.buffer
    then (extract_relevant_buffer_entries target.1 target.2 st.buffer).1
    else []
  { pos := target, buffer := buffer_erase preserved target }

/-- C6 counterexample: starting from `(0, 0)` on a two-block document, fill the
buffer by read-ahead, hot-navigate to `(1, 0)` (buffered, so the window is
inherited), read ahead twice more, hot-navigate back to the stale buffered key
`(0, 1)` inheriting all six entries, and let read-ahead insert `(1, 0)`:
the buffer now holds 6 entries ahead of the live position `(0, 1)` — more than
`K = 5` at an observable instant right after inheritance plus one read-ahead
insertion. -/
theorem c6_counterexample :
    ahead_count [["a", "b"], ["c", "d", "e", "f", "g", "h", "i", "j"]]
      (run_sess [["a", "b"], ["c", "d", "e", "f", "g", "h", "i", "j"]]
        (nav_session
          (run_sess [["a", "b"], ["c", "d", "e", "f", "g", "h", "i", "j"]]
            (nav_session
              (run_sess [["a", "b"], ["c", "d", "e", "f", "g", "h", "i", "j"]]
                { pos := (0, 0), buffer := [] }
                [SessOp.insert (0, 1) (0, 0) 1, SessOp.insert (1, 0) (0, 0) 2,
                 SessOp.insert (1, 1) (0, 0) 3, SessOp.insert (1, 2) (0, 0) 4,
                 SessOp.insert (1, 3) (0, 0) 5])
              (1, 0))
            [SessOp.insert (1, 4) (1, 0) 6, SessOp.insert (1, 5) (1, 0) 7])
          (0, 1))
        [SessOp.insert (1, 0) (0, 1) 8]) = 6 := by
  decide

/-! ## The controller: `TTSManager` (C3, C4, C5, C7)

The manager is modelled as a pure state machine. Config loading, engine
construction and Qt plumbing are abstracted into a `config_ok` flag (the code
returns False from `_start_speaking_from_index` whenever any of them fails);
the byproduct worker-thread lifecycle is recorded as a log of session
start/stop events. The 100 ms timer that clears `_is_navigating` after a
successful restart is modelled as having fired. -/

/-- The `TTSWorker` object as the manager sees it: its start position, its
audio buffer (possibly seeded by inheritance), whether its thread is running,
and a session identifier for the event log. -/
structure Worker where
  start_block : Nat
  start_sentence : Nat
  buffer : List (Key × Nat)
  running : Bool
  sid : Nat
deriving DecidableEq

/-- `TTSManager` state (fields of `__init__`, source lines 378-390). -/
structure MState where
  sentence_data : List (List String)
  config_ok : Bool
  is_speaking : Bool
  tts_worker : Option Worker
  tts_sentence_index : Key
  is_navigating : Bool
  next_sid : Nat
deriving DecidableEq

/-- Worker-session lifecycle events: a worker thread started / was stopped
(or finished). -/
inductive MEv where
  | wstart (sid : Nat)
  | wstop (sid : Nat)
deriving DecidableEq

/-- `TTSManager.set_sentence_index` (source lines 401-404). -/
def set_sentence_index (st : MState) (k : Key) : MState :=
  { st with tts_sentence_index := k }

/-- `TTSManager.stop_speech` (source lines 866-900): a no-op unless speaking
with a running worker; otherwise stop and discard the worker and clear the
speaking and navigation flags. -/
def stop_speech (st : MState) : MState × List MEv :=
  match st.tts_worker with
  | some w =>
    if st.is_speaking && w.running then
      ({ st with tts_worker := none, is_speaking := false, is_navigating := false },
       [MEv.wstop w.sid])
    else (st, [])
  | none => (st, [])

/-- `TTSManager._start_speaking_from_index` (source lines 622-784): fail when
the sentence data or configuration is missing or the current index is out of
range; otherwise tear down any leftover worker (lines 736-746), create a new
worker at the current index seeding its buffer with the inherited entries
(lines 748-757), mark speaking, and (on success) let the deferred timer clear
the navigation flag. Returns (state, events, success). -/
def start_speaking_from_index (st : MState) (inherited : List (Key × Nat)) :
    MState × List MEv × Bool :=
  if st.sentence_data.isEmpty || !st.config_ok then (st, [], false)
  else if st.sentence_data.length ≤ st.tts_sentence_index.1
      || (st.sentence_data.getD st.tts_sentence_index.1 []).length ≤ st.tts_sentence_index.2
  then (st, [], false)
  else
    let evs1 : List MEv :=
      match st.tts_worker with
      | some w => if w.running then [MEv.wstop w.sid] else []
      | none => []
    let w' : Worker :=
      { start_block := st.tts_sentence_index.1, start_sentence := st.tts_sentence_index.2,
        buffer := inherited, running := true, sid := st.next_sid }
    let st' := { st with
      tts_worker := some w'
      is_speaking := true
      next_sid := st.next_sid + 1
      is_navigating := false }
    (st', evs1 ++ [MEv.wstart st.next_sid], true)

/-- `TTSManager._navigate_to_sentence` (source lines 532-588): a no-op (False)
unless speaking with a worker; otherwise, when the target key is buffered,
extract the relevance-window entries from the old buffer; set the navigation
flag, stop and discard the old worker, and restart from the current index with
the preserved entries. -/
def navigate_to_sentence (st : MState) (b s : Nat) : MState × List MEv × Bool :=
  match st.tts_worker with
  | none => (st, [], false)
  | some w =>
    if !st.is_speaking then (st, [], false)
    else
      let preserved :=
        if (b, s) ∈ buffer_keys w.buffer
        then (extract_relevant_buffer_entries b s w.buffer).1
        else []
      let st1 := { st with is_navigating := true, tts_worker := none }
      let evs1 : List MEv := if w.running then [MEv.wstop w.sid] else []
      let r := start_speaking_from_index st1 preserved
      (r.1, evs1 ++ r.2.1, r.2.2)

/-- The spec's `navigateTo(key)`: every caller of `_navigate_to_sentence` in
the source first calls `set_sentence_index` with the target and then navigates
(e.g. source lines 452-455). -/
def navigate_to (st : MState) (k : Key) : MState × List MEv × Bool :=
  navigate_to_sentence (set_sentence_index st k) k.1 k.2

/-- The target-finding loop of `navigate_to_next_sentence` (source lines
420-441), returning the loop's final `(block_idx, sent_idx)`. One fuel unit
per loop iteration; each iteration increments the block, so the wrapper's fuel
always suffices. -/
def find_next_loop (data : List (List String)) : Nat → Nat → Nat → Nat × Nat
  | 0, b, s => (b, s)
  | fuel + 1, b, s =>
    if b < data.length then
      if (data.getD b []).length = 0 then find_next_loop data fuel (b + 1) 0
      else if s + 1 < (data.getD b []).length then (b, s + 1)
      else
        if b + 1 < data.length then
          if (data.getD (b + 1) []).length ≠ 0 then (b + 1, 0)
          else find_next_loop data fuel (b + 1) 0
        else find_next_loop data fuel (b + 1) 0
    else (b, s)

/-- The next-sentence target with the post-loop validity check of
`navigate_to_next_sentence` (source lines 444-447). -/
def navigate_next_target (data : List (List String)) (b s : Nat) : Option Key :=
  let r := find_next_loop data (data.length + 2) b s
  if data.length ≤ r.1 || (data.getD r.1 []).length = 0 then none else some r

/-- The target-finding loop of `navigate_to_previous_sentence` (source lines
467-483); `none` models the loop running past block -1. Each iteration
decrements the sentence index or the block index, so the wrapper's fuel always
suffices. -/
def find_prev_loop (data : List (List String)) : Nat → Nat → Nat → Option Key
  | 0, _, _ => none
  | fuel + 1, b, s =>
    if 0 < s then
      if (data.getD b []).length ≠ 0 then some (b, s - 1)
      else find_prev_loop data fuel b (s - 1)
    else
      if b = 0 then none
      else
        if (data.getD (b - 1) []).length ≠ 0 then
          some (b - 1, (data.getD (b - 1) []).length - 1)
        else find_prev_loop data fuel (b - 1) 0

def navigate_prev_target (data : List (List String)) (b s : Nat) : Option Key :=
  find_prev_loop data (b + s + 2) b s

/-- `TTSManager.navigate_to_next_sentence` (source lines 406-457). -/
def navigate_to_next_sentence (st : MState) : MState × List MEv × Bool :=
  if st.sentence_data.isEmpty || !st.is_speaking then (st, [], false)
  else
    match navigate_next_target st.sentence_data st.tts_sentence_index.1
        st.tts_sentence_index.2 with
    | none => (st, [], false)
    | some k => navigate_to_sentence (set_sentence_index st k) k.1 k.2

/-- `TTSManager.navigate_to_previous_sentence` (source lines 459-494),
including the post-loop validity check (lines 486-488). -/
def navigate_to_previous_sentence (st : MState) : MState × List MEv × Bool :=
  if st.sentence_data.isEmpty || !st.is_speaking then (st, [], false)
  else
    match navigate_prev_target st.sentence_data st.tts_sentence_index.1
        st.tts_sentence_index.2 with
    | none => (st, [], false)
    | some k =>
      if (st.sentence_data.getD k.1 []).length = 0 then (st, [], false)
      else navigate_to_sentence (set_sentence_index st k) k.1 k.2

def total_sentences (data : List (List String)) : Nat := (data.map List.length).sum

/-- `TTSManager.toggle_speech` (source lines 786-864): stop if speaking;
otherwise, with a non-empty document, a complete configuration and at least
one detected sentence, clear the navigation flag and start speaking from the
current index. -/
def toggle_speech (st : MState) : MState × List MEv :=
  if st.is_speaking then stop_speech st
  else if st.sentence_data.isEmpty then (st, [])
  else if !st.config_ok then (st, [])
  else if total_sentences st.sentence_data = 0 then (st, [])
  else
    let r := start_speaking_from_index { st with is_navigating := false } []
    (r.1, r.2.1)

/-- The worker thread finishing naturally: the thread stops running and the
connected `on_speech_finished` (source lines 902-944) clears `is_speaking`
unless a navigation is in progress. -/
def worker_finished (st : MState) : MState × List MEv :=
  match st.tts_worker with
  | some w =>
    if w.running then
      let st1 := { st with tts_worker := some { w with running := false } }
      if st1.is_navigating then (st1, [MEv.wstop w.sid])
      else ({ st1 with is_speaking := false }, [MEv.wstop w.sid])
    else (st, [])
  | none => (st, [])

/-- The worker signalling an error: the thread stops and `on_speech_error`
(source lines 946-950) clears `is_speaking` unconditionally. -/
def worker_errored (st : MState) : MState × List MEv :=
  match st.tts_worker with
  | some w =>
    if w.running then
      ({ st with tts_worker := some { w with running := false }, is_speaking := false },
       [MEv.wstop w.sid])
    else (st, [])
  | none => (st, [])

/-- The operations a client or the worker can drive the manager with. -/
inductive MOp where
  | toggle
  | stop
  | navNext
  | navPrev
  | navTo (k : Key)
  | finishedSig
  | erroredSig

def step_m (st : MState) : MOp → MState × List MEv
  | .toggle => toggle_speech st
  | .stop => stop_speech st
  | .navNext => ((navigate_to_next_sentence st).1, (navigate_to_next_sentence st).2.1)
  | .navPrev => ((navigate_to_previous_sentence st).1, (navigate_to_previous_sentence st).2.1)
  | .navTo k => ((navigate_to st k).1, (navigate_to st k).2.1)
  | .finishedSig => worker_finished st
  | .erroredSig => worker_errored st

def run_ops (st : MState) : List MOp → MState × List MEv
  | [] => (st, [])
  | op :: ops =>
    let r := step_m st op
    let rest := run_ops r.1 ops
    (rest.1, r.2 ++ rest.2)

/-- A freshly constructed manager over a given document with a working
configuration. -/
def init_mstate (data : List (List String)) : MState :=
  { sentence_data := data, config_ok := true, is_speaking := false, tts_worker := none,
    tts_sentence_index := (0, 0), is_navigating := false, next_sid := 0 }

/-! ### At most one live worker session (C4) -/

def starts (l : List MEv) : Nat :=
  l.countP fun e => match e with | .wstart _ => true | .wstop _ => false

def stops (l : List MEv) : Nat :=
  l.countP fun e => match e with | .wstop _ => true | .wstart _ => false

/-- How many live worker sessions the manager holds: it keeps a single
optional worker reference, so 0 or 1. -/
def active (st : MState) : Nat :=
  match st.tts_worker with
  | some w => if w.running then 1 else 0
  | none => 0

lemma active_le_one (st : MState) : active st ≤ 1 := by
  cases hw : st.tts_worker with
  | none => simp [active, hw]
  | some w =>
    simp only [active, hw]
    split_ifs <;> omega

/-- An event chunk taking `a` live sessions to `b` live sessions without ever
exceeding one live session at any intermediate prefix. -/
def chunk_ok (a b : Nat) (evs : List MEv) : Prop :=
  a + starts evs = stops evs + b ∧ b ≤ 1
    ∧ ∀ k, a + starts (evs.take k) ≤ stops (evs.take k) + 1

lemma chunk_ok_nil (a : Nat) (h : a ≤ 1) : chunk_ok a a [] := by
  refine ⟨by simp [starts, stops], h, fun k => ?_⟩
  simp only [List.take_nil, starts, stops, List.countP_nil]
  omega

lemma chunk_ok_stop (x : Nat) : chunk_ok 1 0 [MEv.wstop x] := by
  refine ⟨by simp [starts, stops], by omega, fun k => ?_⟩
  match k with
  | 0 => simp [starts, stops]
  | k + 1 => simp [starts, stops]

lemma chunk_ok_start (x : Nat) : chunk_ok 0 1 [MEv.wstart x] := by
  refine ⟨by simp [starts, stops], by omega, fun k => ?_⟩
  match k with
  | 0 => simp [starts, stops]
  | k + 1 => simp [starts, stops]

lemma chunk_ok_stop_start (x y : Nat) : chunk_ok 1 1 [MEv.wstop x, MEv.wstart y] := by
  refine ⟨by simp [starts, stops], by omega, fun k => ?_⟩
  match k with
  | 0 => simp [starts, stops]
  | 1 => simp [starts, stops]
  | k + 2 => simp [starts, stops]

lemma chunk_ok_append {a b c : Nat} {e1 e2 : List MEv}
    (h1 : chunk_ok a b e1) (h2 : chunk_ok b c e2) : chunk_ok a c (e1 ++ e2) := by
  obtain ⟨hb1, _, hp1⟩ := h1
  obtain ⟨hb2, hle2, hp2⟩ := h2
  refine ⟨?_, hle2, ?_⟩
  · simp only [starts, stops, List.countP_append] at hb1 hb2 ⊢
    omega
  · intro k
    rw [List.take_append_eq_append_take]
    by_cases hk : k ≤ e1.length
    · have h0 : k - e1.length = 0 := by omega
      rw [h0]
      have := hp1 k
      simp only [starts, stops, List.countP_append, List.take_zero, List.countP_nil] at this ⊢
      omega
    · rw [List.take_of_length_le (by omega)]
      have h2k := hp2 (k - e1.length)
      simp only [starts, stops, List.countP_append] at hb1 h2k ⊢
      omega

lemma stop_speech_chunk (st : MState) :
    chunk_ok (active st) (active (stop_speech st).1) (stop_speech st).2 := by
  unfold stop_speech
  cases hw : st.tts_worker with
  | none => exact chunk_ok_nil _ (active_le_one st)
  | some w =>
    dsimp only
    split_ifs with h
    · have hr : w.running = true := by
        cases hrr : w.running
        · rw [hrr, Bool.and_false] at h
          exact absurd h (by simp)
        · rfl
      have ha : active st = 1 := by simp [active, hw, hr]
      rw [ha]
      exact chunk_ok_stop w.sid
    · exact chunk_ok_nil _ (active_le_one st)

lemma start_speaking_chunk (st : MState) (inherited : List (Key × Nat)) :
    chunk_ok (active st) (active (start_speaking_from_index st inherited).1)
      (start_speaking_from_index st inherited).2.1 := by
  unfold start_speaking_from_index
  split_ifs with h1 h2
  · exact chunk_ok_nil _ (active_le_one st)
  · exact chunk_ok_nil _ (active_le_one st)
  · cases hw : st.tts_worker with
    | none =>
      have ha : active st = 0 := by simp [active, hw]
      show chunk_ok (active st) 1 ([] ++ [MEv.wstart st.next_sid])
      rw [ha, List.nil_append]
      exact chunk_ok_start _
    | some w =>
      dsimp only
      by_cases hr : w.running = true
      · have ha : active st = 1 := by simp [active, hw, hr]
        rw [if_pos hr]
        show chunk_ok (active st) 1 ([MEv.wstop w.sid] ++ [MEv.wstart st.next_sid])
        rw [ha]
        exact chunk_ok_stop_start _ _
      · have ha : active st = 0 := by simp [active, hw, hr]
        rw [if_neg hr]
        show chunk_ok (active st) 1 ([] ++ [MEv.wstart st.next_sid])
        rw [ha, List.nil_append]
        exact chunk_ok_start _

lemma navigate_to_sentence_chunk (st : MState) (b s : Nat) :
    chunk_ok (active st) (active (navigate_to_sentence st b s).1)
      (navigate_to_sentence st b s).2.1 := by
  unfold navigate_to_sentence
  cases hw : st.tts_worker with
  | none => exact chunk_ok_nil _ (active_le_one st)
  | some w =>
    dsimp only
    split_ifs with h hbuf hr hr
    · exact chunk_ok_nil _ (active_le_one st)
    · have ha : active st = 1 := by simp [active, hw, hr]
      have hmid := start_speaking_chunk { st with is_navigating := true, tts_worker := none }
        (extract_relevant_buffer_entries b s w.buffer).1
      rw [show active { st with is_navigating := true, tts_worker := none } = 0 from rfl] at hmid
      rw [ha]
      exact chunk_ok_append (chunk_ok_stop _) hmid
    · have ha : active st = 0 := by simp [active, hw, hr]
      have hmid := start_speaking_chunk { st with is_navigating := true, tts_worker := none }
        (extract_relevant_buffer_entries b s w.buffer).1
      rw [show active { st with is_navigating := true, tts_worker := none } = 0 from rfl] at hmid
      rw [List.nil_append, ha]
      exact hmid
    · have ha : active st = 1 := by simp [active, hw, hr]
      have hmid := start_speaking_chunk { st with is_navigating := true, tts_worker := none } []
      rw [show active { st with is_navigating := true, tts_worker := none } = 0 from rfl] at hmid
      rw [ha]
      exact chunk_ok_append (chunk_ok_stop _) hmid
    · have ha : active st = 0 := by simp [active, hw, hr]
      have hmid := start_speaking_chunk { st with is_navigating := true, tts_worker := none } []
      rw [show active { st with is_navigating := true, tts_worker := none } = 0 from rfl] at hmid
      rw [List.nil_append, ha]
      exact hmid

lemma toggle_speech_chunk (st : MState) :
    chunk_ok (active st) (active (toggle_speech st).1) (toggle_speech st).2 := by
  unfold toggle_speech
  split_ifs with h1 h2 h3 h4
  · exact stop_speech_chunk st
  · exact chunk_ok_nil _ (active_le_one st)
  · exact chunk_ok_nil _ (active_le_one st)
  · exact chunk_ok_nil _ (active_le_one st)
  · have := start_speaking_chunk { st with is_navigating := false } []
    have ha : active { st with is_navigating := false } = active st := rfl
    rw [ha] at this
    exact this

lemma worker_finished_chunk (st : MState) :
    chunk_ok (active st) (active (worker_finished st).1) (worker_finished st).2 := by
  unfold worker_finished
  cases hw : st.tts_worker with
  | none => exact chunk_ok_nil _ (active_le_one st)
  | some w =>
    dsimp only
    split_ifs with h1 h2
    · have ha : active st = 1 := by simp [active, hw, h1]
      rw [ha]
      exact chunk_ok_stop _
    · have ha : active st = 1 := by simp [active, hw, h1]
      rw [ha]
      exact chunk_ok_stop _
    · exact chunk_ok_nil _ (active_le_one st)

lemma worker_errored_chunk (st : MState) :
    chunk_ok (active st) (active (worker_errored st).1) (worker_errored st).2 := by
  unfold worker_errored
  cases hw : st.tts_worker with
  | none => exact chunk_ok_nil _ (active_le_one st)
  | some w =>
    dsimp only
    split_ifs with h1
    · have ha : active st = 1 := by simp [active, hw, h1]
      rw [ha]
      exact chunk_ok_stop _
    · exact chunk_ok_nil _ (active_le_one st)

lemma step_m_chunk (st : MState) (op : MOp) :
    chunk_ok (active st) (active (step_m st op).1) (step_m st op).2 := by
  cases op with
  | toggle => exact toggle_speech_chunk st
  | stop => exact stop_speech_chunk st
  | navNext =>
    show chunk_ok (active st) (active (navigate_to_next_sentence st).1)
      (navigate_to_next_sentence st).2.1
    unfold navigate_to_next_sentence
    split_ifs with h1
    · exact chunk_ok_nil _ (active_le_one st)
    · cases navigate_next_target st.sentence_data st.tts_sentence_index.1
          st.tts_sentence_index.2 with
      | none => exact chunk_ok_nil _ (active_le_one st)
      | some k => exact navigate_to_sentence_chunk (set_sentence_index st k) k.1 k.2
  | navPrev =>
    show chunk_ok (active st) (active (navigate_to_previous_sentence st).1)
      (navigate_to_previous_sentence st).2.1
    unfold navigate_to_previous_sentence
    split_ifs with h1
    · exact chunk_ok_nil _ (active_le_one st)
    · cases navigate_prev_target st.sentence_data st.tts_sentence_index.1
          st.tts_sentence_index.2 with
      | none => exact chunk_ok_nil _ (active_le_one st)
      | some k =>
        dsimp only
        split_ifs with h2
        · exact chunk_ok_nil _ (active_le_one st)
        · exact navigate_to_sentence_chunk (set_sentence_index st k) k.1 k.2
  | navTo k =>
    show chunk_ok (active st) (active (navigate_to st k).1) (navigate_to st k).2.1
    unfold navigate_to
    exact navigate_to_sentence_chunk (set_sentence_index st k) k.1 k.2
  | finishedSig => exact worker_finished_chunk st
  | erroredSig => exact worker_errored_chunk st

lemma run_ops_chunk (ops : List MOp) :
    ∀ st, chunk_ok (active st) (active (run_ops st ops).1) (run_ops st ops).2 := by
  induction ops with
  | nil => intro st; exact chunk_ok_nil _ (active_le_one st)
  | cons op ops ih =>
    intro st
    show chunk_ok (active st) (active (run_ops (step_m st op).1 ops).1)
      ((step_m st op).2 ++ (run_ops (step_m st op).1 ops).2)
    exact chunk_ok_append (step_m_chunk st op) (ih (step_m st op).1)

/-- C4 as amended. (a) Over any sequence of public operations and worker
signals from a fresh manager, every prefix of the session event log has at
most one unmatched worker start: at most one worker session is ever live.
(b) A second start-toggle while speaking is not a no-op: it stops the active
session (tearing down the worker and clearing the speaking flag) instead of
starting a second one. -/
theorem c4_at_most_one_live_session :
    (∀ (data : List (List String)) (ops : List MOp) (k : Nat),
      starts (((run_ops (init_mstate data) ops).2).take k)
        ≤ stops (((run_ops (init_mstate data) ops).2).take k) + 1)
    ∧ (∀ (st : MState) (w : Worker), st.is_speaking = true → st.tts_worker = some w →
        w.running = true →
        (toggle_speech st).1
          = { st with is_speaking := false, tts_worker := none, is_navigating := false }) := by
  constructor
  · intro data ops k
    have h := run_ops_chunk ops (init_mstate data)
    have ha : active (init_mstate data) = 0 := rfl
    rw [ha] at h
    have := h.2.2 k
    omega
  · intro st w hs hw hr
    have hcond : (st.is_speaking && w.running) = true := by simp [hs, hr]
    unfold toggle_speech
    rw [if_pos hs]
    unfold stop_speech
    rw [hw]
    dsimp only
    rw [if_pos hcond]

/-- C4 counterexample to "the second call is a no-op": on a one-block document,
the first toggle starts speaking and a second toggle (with no intervening
stop) changes the state — it stops the session. -/
theorem c4_counterexample :
    (toggle_speech (init_mstate [["a"]])).1.is_speaking = true
    ∧ (toggle_speech (toggle_speech (init_mstate [["a"]])).1).1.is_speaking = false
    ∧ (toggle_speech (toggle_speech (init_mstate [["a"]])).1).1
        ≠ (toggle_speech (init_mstate [["a"]])).1 := by
  decide

/-! ### Out-of-range navigation (C5) -/

/-- C5 as amended. `navigateTo` with an out-of-range key returns False, but the
controller state is *not* left unchanged: the active worker is torn down with
no replacement started (`_navigate_to_sentence` stops the worker before
`_start_speaking_from_index` validates the index), `is_speaking` stays true,
the navigation flag stays set, and the current position becomes the
out-of-range key. -/
theorem c5_out_of_range_navigation_tears_down (st : MState) (w : Worker) (b s : Nat)
    (hs : st.is_speaking = true) (hw : st.tts_worker = some w)
    (hrange : st.sentence_data.length ≤ b ∨ (st.sentence_data.getD b []).length ≤ s) :
    (navigate_to st (b, s)).2.2 = false
    ∧ (navigate_to st (b, s)).1.tts_worker = none
    ∧ (navigate_to st (b, s)).1.is_speaking = true
    ∧ (navigate_to st (b, s)).1.tts_sentence_index = (b, s)
    ∧ (navigate_to st (b, s)).1.is_navigating = true := by
  unfold navigate_to navigate_to_sentence set_sentence_index
  dsimp only
  rw [hw]
  dsimp only
  rw [if_neg (by rw [hs]; decide)]
  unfold start_speaking_from_index
  dsimp only
  split_ifs with h1 h2 hmem
  · exact ⟨rfl, rfl, hs, rfl, rfl⟩
  · exact ⟨rfl, rfl, hs, rfl, rfl⟩
  · exfalso
    simp only [Bool.or_eq_true, decide_eq_true_eq, not_or] at h2
    omega
  · exfalso
    simp only [Bool.or_eq_true, decide_eq_true_eq, not_or] at h2
    omega

/-- The concrete speaking manager over a 2-block document used for C5. -/
def c5_state : MState where
  sentence_data := [["a"], ["b"]]
  config_ok := true
  is_speaking := true
  tts_worker := some { start_block := 0, start_sentence := 0, buffer := [], running := true, sid := 0 }
  tts_sentence_index := (0, 0)
  is_navigating := false
  next_sid := 1

/-- Witness for C5 at a concrete input: a speaking manager over a 2-block
document, navigated to the out-of-range key `(5, 0)`. -/
theorem c5_witness :
    (navigate_to c5_state (5, 0)).2.2 = false
    ∧ (navigate_to c5_state (5, 0)).1.tts_worker = none
    ∧ (navigate_to c5_state (5, 0)).1.is_speaking = true :=
  have h := c5_out_of_range_navigation_tears_down c5_state
    { start_block := 0, start_sentence := 0, buffer := [], running := true, sid := 0 }
    5 0 (by decide) (by decide) (by decide)
  ⟨h.1, h.2.1, h.2.2.1⟩

/-- C5 counterexample to "state unchanged": `navigateTo (5, 0)` on a 2-block
document returns False yet leaves the manager in a different state (worker
destroyed, position moved to the invalid key, navigation flag stuck). -/
theorem c5_counterexample :
    (navigate_to c5_state (5, 0)).2.2 = false
    ∧ (navigate_to c5_state (5, 0)).1 ≠ c5_state := by
  decide

/-! ### Buffer inheritance at a hot navigation (C3) -/

/-- C3 as amended. At a hot navigation, **when the target key itself is present
in the old worker's buffer**, the navigation succeeds and the new worker's
buffer is exactly the relevance-window extract of the old buffer — in
particular every old entry within the window (same block within ±10 sentences,
or a different block within ±2 blocks) is inherited rather than destroyed.
(When the target key is not buffered, nothing is preserved — see the
counterexample.) -/
theorem c3_window_entries_inherited_when_target_buffered (st : MState) (w : Worker)
    (b s : Nat)
    (hs : st.is_speaking = true) (hw : st.tts_worker = some w)
    (hbuf : (b, s) ∈ buffer_keys w.buffer)
    (hidx : st.tts_sentence_index = (b, s))
    (hcfg : st.config_ok = true)
    (hvalid : valid_sent st.sentence_data (b, s)) :
    (navigate_to_sentence st b s).2.2 = true
    ∧ ((navigate_to_sentence st b s).1.tts_worker.map Worker.buffer)
        = some ((extract_relevant_buffer_entries b s w.buffer).1)
    ∧ ∀ e ∈ w.buffer, within_window b s e.1.1 e.1.2 = true →
        e ∈ (extract_relevant_buffer_entries b s w.buffer).1 := by
  have hne : st.sentence_data.isEmpty = false := by
    cases hdata : st.sentence_data with
    | nil => exact absurd (hdata ▸ hvalid.1) (by simp)
    | cons x xs => rfl
  unfold navigate_to_sentence
  rw [hw]
  dsimp only
  rw [if_neg (by rw [hs]; decide)]
  rw [if_pos hbuf]
  unfold start_speaking_from_index
  dsimp only
  split_ifs with h1 h2
  · exfalso
    rw [hne, hcfg] at h1
    simp at h1
  · exfalso
    simp only [hidx, Bool.or_eq_true, decide_eq_true_eq] at h2
    have h3 := hvalid.1
    have h4 := hvalid.2
    simp only at h3 h4
    omega
  · refine ⟨rfl, rfl, ?_⟩
    intro e he hwin
    exact List.mem_filter.mpr ⟨he, hwin⟩

/-- The concrete speaking manager used for C3: sentences `(0, 1)` and `(0, 2)`
are pre-buffered. -/
def c3_state : MState where
  sentence_data := [["a", "b", "c"]]
  config_ok := true
  is_speaking := true
  tts_worker := some { start_block := 0, start_sentence := 0, buffer := [((0, 1), 41), ((0, 2), 42)], running := true, sid := 0 }
  tts_sentence_index := (0, 1)
  is_navigating := false
  next_sid := 1

/-- Witness for C3 at a concrete input: target `(0, 1)` is buffered along with
`(0, 2)`; both window entries are inherited by the new worker. -/
theorem c3_witness :
    (navigate_to_sentence c3_state 0 1).2.2 = true
    ∧ ((navigate_to_sentence c3_state 0 1).1.tts_worker.map Worker.buffer)
      = some ((extract_relevant_buffer_entries 0 1 [((0, 1), 41), ((0, 2), 42)]).1) :=
  have h := c3_window_entries_inherited_when_target_buffered c3_state
    { start_block := 0, start_sentence := 0, buffer := [((0, 1), 41), ((0, 2), 42)],
      running := true, sid := 0 }
    0 1 (by decide) (by decide) (by decide) (by decide) (by decide) (by decide)
  ⟨h.1, h.2.1⟩

/-- The C3 counterexample manager: only `(0, 2)` is buffered, and the
navigation target `(0, 1)` is not. -/
def c3_state2 : MState where
  sentence_data := [["a", "b", "c"]]
  config_ok := true
  is_speaking := true
  tts_worker := some { start_block := 0, start_sentence := 0, buffer := [((0, 2), 42)], running := true, sid := 0 }
  tts_sentence_index := (0, 1)
  is_navigating := false
  next_sid := 1

/-- C3 counterexample to the claim as stated (extraction for *every* hot
navigation): when the target `(0, 1)` is **not** in the old buffer, nothing is
preserved — the entry for `(0, 2)`, squarely inside the relevance window of
the target, reaches no new buffer and is destroyed with the old session. -/
theorem c3_counterexample :
    within_window 0 1 0 2 = true
    ∧ (navigate_to_sentence c3_state2 0 1).2.2 = true
    ∧ ((navigate_to_sentence c3_state2 0 1).1.tts_worker.map Worker.buffer) = some [] := by
  decide

/-- The C7 manager: speaking at `(0, 1)` of `[["a", "b"], [], ["c", "d", "e"]]`
(an empty block between two non-empty ones). -/
def c7_state : MState where
  sentence_data := [["a", "b"], [], ["c", "d", "e"]]
  config_ok := true
  is_speaking := true
  tts_worker := some { start_block := 0, start_sentence := 1, buffer := [], running := true, sid := 0 }
  tts_sentence_index := (0, 1)
  is_navigating := false
  next_sid := 1

/-- C7 at the failing input. From `(0, 1)`, `navigate_to_next_sentence`
succeeds but lands on `(2, 1)` — skipping sentence `(2, 0)`, because the loop
resets `sent_idx` to 0 while crossing the empty block and then still takes the
`sent_idx + 1` branch — so the immediately following
`navigate_to_previous_sentence` ends at `(2, 0)`, not at the original
`(0, 1)`: the round trip fails although both navigations returned success. -/
theorem c7_next_prev_roundtrip_broken :
    (navigate_to_next_sentence c7_state).2.2 = true
    ∧ (navigate_to_next_sentence c7_state).1.tts_sentence_index = (2, 1)
    ∧ (navigate_to_previous_sentence (navigate_to_next_sentence c7_state).1).2.2 = true
    ∧ (navigate_to_previous_sentence
        (navigate_to_next_sentence c7_state).1).1.tts_sentence_index = (2, 0)
    ∧ ((2, 0) : Key) ≠ (0, 1) := by
  decide

end Assistivox
